import Mathlib

/-!
Shallow embedding of the `grep-rust` command-line search tool (src/main.rs)
and verification of its specification claims.

Strings that are searched are modelled as `List Char`; file paths stay
`String`.  The filesystem is an abstract record of the operations the
program performs (`fs::metadata`, `WalkDir`, `glob::glob`,
`fs::read_to_string`), so that `parse_filenames` and `run` become pure
functions of a filesystem model.  Standard output is modelled as the list
of emitted lines (header part plus a structured body that records whether
the colored-highlight branch was taken), standard error as a list of
diagnostic strings, and a fatal `Result::Err` as an `Option String`.
-/

/-- Case folding of a string, modelling Rust `str::to_lowercase`
(applied character by character). -/
def toLowerStr (s : List Char) : List Char := s.map Char.toLower

/-- Substring containment, modelling Rust `str::contains` with a string
pattern: `strContains l p` is true iff `p` occurs contiguously in `l`
(the empty pattern occurs in every string). -/
def strContains : List Char → List Char → Bool
  | [], p => p.isPrefixOf []
  | c :: t, p => p.isPrefixOf (c :: t) || strContains t p

/-- Index of the first occurrence of `p` in `l`, modelling Rust
`str::find` with a string pattern. -/
def strFind : List Char → List Char → Option Nat
  | [], p => if p.isPrefixOf [] then some 0 else none
  | c :: t, p => if p.isPrefixOf (c :: t) then some 0 else (strFind t p).map (· + 1)

/-- Remove one trailing carriage return, modelling the `strip_suffix` of a
final carriage return that Rust `str::lines` performs on each
newline-terminated piece. -/
def stripCR (l : List Char) : List Char :=
  match l.getLast? with
  | some c => if c = '\r' then l.dropLast else l
  | none => l

/-- Worker for `linesOf`: split at every line feed, strip a carriage
return before each line feed, keep a final unterminated piece only when
it is nonempty. -/
def linesAux : List Char → List Char → List (List Char)
  | [], acc => if acc.isEmpty then [] else [acc.reverse]
  | c :: rest, acc =>
    if c = '\n' then stripCR acc.reverse :: linesAux rest []
    else linesAux rest (c :: acc)

/-- The lines of a file's contents, modelling Rust `str::lines`. -/
def linesOf (s : String) : List (List Char) := linesAux s.data []

/-- The configuration record built by `Config::new` (argument parsing
itself is outside the claims; the record mirrors `struct Config`). -/
structure Config where
  print_usage : Bool
  search_string : List Char
  filenames : List String
  is_case_insensitive : Bool
  print_line_no : Bool
  invert_match : Bool
  recursive_search : Bool
  print_filenames : Bool
  coloured_output : Bool

/-- Abstract filesystem model: the outcomes of the filesystem operations
the program performs.  `metadata` returns the `is_dir` flag on success;
`walkdir` lists the entries `WalkDir` yields (errors included, since the
code filter-maps `Result::ok`); `glob` returns the match list of
`glob::glob`, each match itself fallible; `readToString` models
`fs::read_to_string`. -/
structure FS where
  metadata : String → Except String Bool
  walkdir : String → List (Except String String)
  isFile : String → Bool
  glob : String → Except String (List (Except String String))
  readToString : String → Except String String

/-- The body of one emitted output line: either the line printed
unchanged (plain mode), or the three pieces printed by the colored
branch (prefix, emphasized slice, suffix), or the panic of the
`unwrap` in that branch when `find` returned `None`. -/
inductive Body where
  | plain : List Char → Body
  | highlighted : List Char → List Char → List Char → Body
  | panicked : Body
deriving DecidableEq

/-- One emitted stdout line: the header built by the `push_str` calls
(filename and line-number parts) together with the rendered body. -/
abbrev Emitted := List Char × Body

/-- The usage text printed for `-h`/`--help`. -/
def USAGE_INFO : String :=
"Usage: grep [OPTIONS] <pattern> <files...>\nOptions:\n-i                Case-insensitive search\n-n                Print line numbers\n-v                Invert match (exclude lines that match the pattern)\n-r                Recursive directory search\n-f                Print filenames\n-c                Enable colored output\n-h, --help        Show help information"

/-- The diagnostic printed to stderr for a directory met without `-r`. -/
def dirDiag (filename : String) : String :=
  filename ++ " is a directory. Use -r option to search recursively."

/-- Collect the fallible glob matches as the `for path in paths` loop
with `path?` does: the first error aborts. -/
def collectGlob : List (Except String String) → Except String (List String)
  | [] => Except.ok []
  | Except.error e :: _ => Except.error e
  | Except.ok p :: rest => (collectGlob rest).map (fun ps => p :: ps)

/-- Embedding of `parse_filenames` from src/main.rs.  Returns the
`Result` value together with the stderr diagnostics emitted before the
function returned. -/
def parse_filenames (fs : FS) : List String → Bool → Except String (List String) × List String
  | [], _ => (Except.ok [], [])
  | filename :: rest, recursive_search =>
    match fs.metadata filename with
    | Except.error e => (Except.error e, [])
    | Except.ok isDir =>
      if isDir then
        if recursive_search then
          ((parse_filenames fs rest recursive_search).1.map
            (fun files => (((fs.walkdir filename).filterMap Except.toOption).filter fs.isFile) ++ files),
           (parse_filenames fs rest recursive_search).2)
        else
          ((parse_filenames fs rest recursive_search).1,
           dirDiag filename :: (parse_filenames fs rest recursive_search).2)
      else
        if filename.data.contains '*' then
          match fs.glob filename with
          | Except.error e => (Except.error e, [])
          | Except.ok paths =>
            match collectGlob paths with
            | Except.error e => (Except.error e, [])
            | Except.ok ps =>
              ((parse_filenames fs rest recursive_search).1.map (fun files => ps ++ files),
               (parse_filenames fs rest recursive_search).2)
        else
          ((parse_filenames fs rest recursive_search).1.map (fun files => filename :: files),
           (parse_filenames fs rest recursive_search).2)

/-- The raw per-line match decision of `run` (src/main.rs lines 136-141):
case-folded containment under `-i`, plain containment otherwise. -/
def rawMatch (c : Config) (line : List Char) : Bool :=
  if c.is_case_insensitive then
    strContains (toLowerStr line) (toLowerStr c.search_string)
  else
    strContains line c.search_string

/-- The match decision after the `-v` inversion (src/main.rs lines 143-145). -/
def effectiveMatch (c : Config) (line : List Char) : Bool :=
  if c.invert_match then !(rawMatch c line) else rawMatch c line

/-- The header string built by the `push_str` calls of `run`
(src/main.rs lines 149-156): optional `<filename>: `, then optional
`<line number>: `. -/
def buildOutput (c : Config) (file : String) (line_no : Nat) : List Char :=
  (if c.print_filenames then file.data ++ (": ").data else []) ++
  (if c.print_line_no then (Nat.repr line_no).data ++ (": ").data else [])

/-- The rendering of a matched line's body (src/main.rs lines 158-168):
the colored branch slices the line around `line.find(pattern).unwrap()`;
every other case prints the line unchanged. -/
def renderBody (c : Config) (line : List Char) : Body :=
  if c.coloured_output && !c.invert_match && !c.is_case_insensitive then
    match strFind line c.search_string with
    | some index =>
      Body.highlighted (line.take index)
        ((line.drop index).take c.search_string.length)
        (line.drop (index + c.search_string.length))
    | none => Body.panicked
  else Body.plain line

/-- The per-line loop of `run` over the lines of one file, carrying the
`line_no` counter that increments for every input line. -/
def scanLines (c : Config) (file : String) : List (List Char) → Nat → List Emitted
  | [], _ => []
  | line :: rest, line_no =>
    (if effectiveMatch c line then [(buildOutput c file line_no, renderBody c line)] else []) ++
    scanLines c file rest (line_no + 1)

/-- Scanning one file's contents: `let lines = contents.lines();
let mut line_no = 1; ...`. -/
def scanFile (c : Config) (file : String) (contents : String) : List Emitted :=
  scanLines c file (linesOf contents) 1

/-- The `for file in files` loop of `run`: read each file in order,
aborting on the first read error while keeping the lines already
printed for earlier files. -/
def scanFiles (fs : FS) (c : Config) : List String → List Emitted × Option String
  | [] => ([], none)
  | file :: rest =>
    match fs.readToString file with
    | Except.error e => ([], some e)
    | Except.ok contents =>
      (scanFile c file contents ++ (scanFiles fs c rest).1, (scanFiles fs c rest).2)

/-- The usage line printed when `print_usage` is set. -/
def usageLine : Emitted := ([], Body.plain USAGE_INFO.data)

/-- Embedding of `run` from src/main.rs: stdout lines, stderr
diagnostics, and the fatal error, if any. -/
def run (fs : FS) (c : Config) : List Emitted × List String × Option String :=
  if c.print_usage then ([usageLine], [], none)
  else
    match parse_filenames fs c.filenames c.recursive_search with
    | (Except.error e, d) => ([], d, some e)
    | (Except.ok files, d) =>
      ((scanFiles fs c files).1, d, (scanFiles fs c files).2)

/-! ### Helper lemmas about the string primitives -/

theorem strContains_nil_pattern (l : List Char) : strContains l [] = true := by
  cases l <;> simp [strContains]

theorem strFind_isSome_of_strContains {l p : List Char} (h : strContains l p = true) :
    ∃ i, strFind l p = some i := by
  induction l with
  | nil =>
    simp only [strContains] at h
    exact ⟨0, by simp [strFind, h]⟩
  | cons c t ih =>
    by_cases hp : p.isPrefixOf (c :: t)
    · exact ⟨0, by simp [strFind, hp]⟩
    · simp only [strContains, hp, Bool.false_or] at h
      obtain ⟨j, hj⟩ := ih h
      exact ⟨j + 1, by simp [strFind, hp, hj]⟩

theorem strFind_some_spec {l p : List Char} {i : Nat} (h : strFind l p = some i) :
    p.isPrefixOf (l.drop i) = true ∧ i ≤ l.length := by
  induction l generalizing i with
  | nil =>
    by_cases hp : p.isPrefixOf ([] : List Char)
    · simp only [strFind, hp, if_pos] at h
      injection h with h
      subst h
      exact ⟨hp, by simp⟩
    · simp [strFind, hp] at h
  | cons c t ih =>
    by_cases hp : p.isPrefixOf (c :: t)
    · simp only [strFind, hp, if_pos] at h
      injection h with h
      subst h
      exact ⟨by simpa using hp, by simp⟩
    · rw [strFind, if_neg hp] at h
      cases hfind : strFind t p with
      | none => rw [hfind] at h; exact absurd h (by simp)
      | some j =>
        rw [hfind] at h
        simp only [Option.map_some'] at h
        injection h with h
        subst h
        obtain ⟨h1, h2⟩ := ih hfind
        exact ⟨by simpa using h1, by simpa using Nat.succ_le_succ h2⟩

theorem strFind_min {l p : List Char} {i : Nat} (h : strFind l p = some i) :
    ∀ j, j < i → p.isPrefixOf (l.drop j) = false := by
  induction l generalizing i with
  | nil =>
    by_cases hp : p.isPrefixOf ([] : List Char)
    · simp only [strFind, hp, if_pos] at h
      injection h with h
      subst h
      intro j hj
      exact absurd hj (Nat.not_lt_zero j)
    · simp [strFind, hp] at h
  | cons c t ih =>
    by_cases hp : p.isPrefixOf (c :: t)
    · simp only [strFind, hp, if_pos] at h
      injection h with h
      subst h
      intro j hj
      exact absurd hj (Nat.not_lt_zero j)
    · rw [strFind, if_neg hp] at h
      cases hfind : strFind t p with
      | none => rw [hfind] at h; exact absurd h (by simp)
      | some j0 =>
        rw [hfind] at h
        simp only [Option.map_some'] at h
        injection h with h
        subst h
        intro j hj
        cases j with
        | zero =>
          simp only [List.drop_zero]
          exact Bool.eq_false_iff.mpr hp
        | succ j => simpa using ih hfind j (Nat.lt_of_succ_lt_succ hj)

theorem strFind_decomp {l p : List Char} {i : Nat} (h : strFind l p = some i) :
    i + p.length ≤ l.length ∧
    (l.drop i).take p.length = p ∧
    l.take i ++ p ++ l.drop (i + p.length) = l := by
  obtain ⟨hpre, hle⟩ := strFind_some_spec h
  rw [List.isPrefixOf_iff_prefix] at hpre
  obtain ⟨s, hs⟩ := hpre
  have hlen : (l.drop i).length = l.length - i := List.length_drop i l
  rw [← hs] at hlen
  simp only [List.length_append] at hlen
  refine ⟨by omega, ?_, ?_⟩
  · rw [← hs]
    simp
  · have hdrop : l.drop (i + p.length) = s := by
      have hdd : (l.drop i).drop p.length = l.drop (i + p.length) := List.drop_drop p.length i l
      rw [← hs] at hdd
      simpa only [List.drop_left] using hdd.symm
    rw [hdrop, List.append_assoc, hs]
    exact List.take_append_drop i l

/-! ### Closed forms for the scanner -/

theorem scanLines_closed_form (c : Config) (f : String) (ls : List (List Char)) (n : Nat) :
    scanLines c f ls n = (List.enumFrom n ls).filterMap
      (fun p => if effectiveMatch c p.2 then
          some ((buildOutput c f p.1, renderBody c p.2) : Emitted) else none) := by
  induction ls generalizing n with
  | nil => rfl
  | cons line rest ih =>
    simp only [scanLines, List.enumFrom, List.filterMap_cons, ih n.succ]
    cases he : effectiveMatch c line <;> simp [he]

theorem collectGlob_map_ok (gs : List String) :
    collectGlob (gs.map Except.ok) = Except.ok gs := by
  induction gs with
  | nil => rfl
  | cons g rest ih => simp [collectGlob, ih, Except.map]

/-! ### Spec-side definition for the match decision (refinement target) -/

/-- The match predicate exactly as the spec words it: `contains(lowercase(L),
lowercase(P))` when case-insensitive is set, `contains(L, P)` otherwise. -/
def specMatches (caseInsensitive : Bool) (l p : List Char) : Bool :=
  if caseInsensitive then strContains (toLowerStr l) (toLowerStr p)
  else strContains l p

/-! ### Claim C1 -/

/-- C1: For every line L and pattern P, the per-line match decision of the
code (`rawMatch`) equals substring containment as the spec states it: with
`caseInsensitive` it is containment of the lower-cased pattern in the
lower-cased line, otherwise plain containment. -/
theorem c1_match_decision (c : Config) (line : List Char) :
    rawMatch c line = specMatches c.is_case_insensitive line c.search_string := rfl

/-! ### Claim C5 -/

/-- C5: Invert law — with all other options fixed, the effective match
decision with `invert` set is the negation of the effective match decision
with `invert` unset. -/
theorem c5_invert_law (c : Config) (line : List Char) :
    effectiveMatch { c with invert_match := true } line =
      !(effectiveMatch { c with invert_match := false } line) := by
  simp [effectiveMatch, rawMatch]

/-! ### Claim C7 -/

/-- C7: A supplied path that is a directory while `recursive` is false does
not fail the resolver: it contributes zero files, emits exactly one
diagnostic to the error stream, and the remaining paths are processed
exactly as they would be on their own. -/
theorem c7_directory_nonrecursive (fs : FS) (d : String) (rest : List String)
    (hdir : fs.metadata d = Except.ok true) :
    parse_filenames fs (d :: rest) false =
      ((parse_filenames fs rest false).1,
       dirDiag d :: (parse_filenames fs rest false).2) := by
  simp [parse_filenames, hdir]

/-- Filesystem in which every path is a directory. -/
def fsAllDirs : FS where
  metadata := fun _ => Except.ok true
  walkdir := fun _ => []
  isFile := fun _ => true
  glob := fun _ => Except.ok []
  readToString := fun _ => Except.ok ""

theorem c7_witness :
    parse_filenames fsAllDirs ["d"] false = (Except.ok [], [dirDiag "d"]) := by
  rw [c7_directory_nonrecursive fsAllDirs "d" [] rfl]
  rfl

/-! ### Claim C2 -/

/-- C2: Highlighted rendering is used iff `colorOutput` is true, `invert`
is false, `caseInsensitive` is false and the line raw-matches; in that case
the emitted body is the prefix before the first occurrence of the pattern,
then the occurrence itself (emphasized), then the suffix; in every other
case an emitted line's body is the line unchanged (plain mode). -/
theorem c2_highlight_mode (c : Config) (f : String) (n : Nat) (line : List Char) :
    ((c.coloured_output && !c.invert_match && !c.is_case_insensitive && rawMatch c line) = true →
      ∃ i, strFind line c.search_string = some i ∧
        (∀ j, j < i → c.search_string.isPrefixOf (line.drop j) = false) ∧
        scanLines c f [line] n =
          [(buildOutput c f n,
            Body.highlighted (line.take i) c.search_string
              (line.drop (i + c.search_string.length)))]) ∧
    ((c.coloured_output && !c.invert_match && !c.is_case_insensitive && rawMatch c line) = false →
      scanLines c f [line] n = [] ∨
      scanLines c f [line] n = [(buildOutput c f n, Body.plain line)]) := by
  constructor
  · intro h
    rw [Bool.and_eq_true, Bool.and_eq_true, Bool.and_eq_true] at h
    obtain ⟨⟨⟨hcol, hinvb⟩, hcib⟩, hraw⟩ := h
    have hinv : c.invert_match = false := by simpa using hinvb
    have hci : c.is_case_insensitive = false := by simpa using hcib
    have hcontains : strContains line c.search_string = true := by
      simpa [rawMatch, hci] using hraw
    obtain ⟨i, hfind⟩ := strFind_isSome_of_strContains hcontains
    obtain ⟨hlen, htake, hdecomp⟩ := strFind_decomp hfind
    refine ⟨i, hfind, strFind_min hfind, ?_⟩
    have heff : effectiveMatch c line = true := by simp [effectiveMatch, hinv, hraw]
    simp [scanLines, heff, renderBody, hcol, hinv, hci, hfind, htake]
  · intro h
    cases heff : effectiveMatch c line with
    | false => exact Or.inl (by simp [scanLines, heff])
    | true =>
      refine Or.inr ?_
      have hcond : (c.coloured_output && !c.invert_match && !c.is_case_insensitive) = false := by
        cases hinv : c.invert_match with
        | true => simp [hinv]
        | false =>
          have hraw : rawMatch c line = true := by
            simpa [effectiveMatch, hinv] using heff
          simpa [hraw, hinv] using h
      have hrb : renderBody c line = Body.plain line := by
        simp only [renderBody, hcond]
        simp
      simp [scanLines, heff, hrb]

/-! ### Claim C9 -/

/-- C9: Whenever the highlighting branch is taken (`coloured_output` true,
`invert_match` false, `is_case_insensitive` false, and the line matched),
`line.find(pattern)` returns `Some`, so the `unwrap` never panics, and the
three slices taken at the returned index are in bounds and decompose the
line as prefix, first occurrence and suffix. -/
theorem c9_highlight_safe (c : Config) (line : List Char)
    (hcol : c.coloured_output = true) (hinv : c.invert_match = false)
    (hci : c.is_case_insensitive = false) (hmatch : rawMatch c line = true) :
    ∃ i, strFind line c.search_string = some i ∧
      i + c.search_string.length ≤ line.length ∧
      line.take i ++ c.search_string ++ line.drop (i + c.search_string.length) = line ∧
      renderBody c line ≠ Body.panicked := by
  have hcontains : strContains line c.search_string = true := by
    simpa [rawMatch, hci] using hmatch
  obtain ⟨i, hfind⟩ := strFind_isSome_of_strContains hcontains
  obtain ⟨hlen, htake, hdecomp⟩ := strFind_decomp hfind
  refine ⟨i, hfind, hlen, hdecomp, ?_⟩
  simp [renderBody, hcol, hinv, hci, hfind]

/-- Configuration with colored output enabled and pattern `foo`. -/
def cfgColor : Config where
  print_usage := false
  search_string := ("foo").data
  filenames := ["a.txt"]
  is_case_insensitive := false
  print_line_no := false
  invert_match := false
  recursive_search := false
  print_filenames := false
  coloured_output := true

theorem c9_witness : renderBody cfgColor ("xfoobar").data ≠ Body.panicked := by
  obtain ⟨i, hfind, hlen, hdecomp, hpan⟩ :=
    c9_highlight_safe cfgColor ("xfoobar").data rfl rfl rfl (by decide)
  exact hpan

theorem c2_witness :
    scanLines cfgColor "a.txt" [("xfoobar").data] 1 =
      [([], Body.highlighted ("x").data ("foo").data ("bar").data)] := by
  obtain ⟨i, hfind, hmin, heq⟩ :=
    (c2_highlight_mode cfgColor "a.txt" 1 ("xfoobar").data).1 (by decide)
  have h1 : strFind ("xfoobar").data cfgColor.search_string = some 1 := by decide
  have hi : i = 1 := by
    have h2 := hfind.symm.trans h1
    injection h2
  subst hi
  rw [heq]
  decide

/-! ### Claim C10 -/

/-- C10: With an empty search pattern every line raw-matches, so without
invert every input line of a scan is emitted, and with invert none is. -/
theorem c10_empty_pattern (c : Config) (f : String) (ls : List (List Char)) (n : Nat)
    (hpat : c.search_string = []) :
    (∀ line, rawMatch c line = true) ∧
    (c.invert_match = false → (scanLines c f ls n).length = ls.length) ∧
    (c.invert_match = true → scanLines c f ls n = []) := by
  have hraw : ∀ line, rawMatch c line = true := by
    intro line
    rw [rawMatch, hpat]
    split <;> simp [toLowerStr, strContains_nil_pattern]
  refine ⟨hraw, ?_, ?_⟩
  · intro hinv
    induction ls generalizing n with
    | nil => rfl
    | cons line rest ih =>
      have heff : effectiveMatch c line = true := by simp [effectiveMatch, hinv, hraw]
      simp [scanLines, heff, ih]
  · intro hinv
    induction ls generalizing n with
    | nil => rfl
    | cons line rest ih =>
      have heff : effectiveMatch c line = false := by simp [effectiveMatch, hinv, hraw]
      simp [scanLines, heff, ih]

/-- Configuration with an empty pattern and no flags. -/
def cfgEmptyPat : Config where
  print_usage := false
  search_string := []
  filenames := ["a.txt"]
  is_case_insensitive := false
  print_line_no := false
  invert_match := false
  recursive_search := false
  print_filenames := false
  coloured_output := false

theorem c10_witness :
    (scanLines cfgEmptyPat "a.txt" [("a").data, ("b").data] 1).length = 2 :=
  (c10_empty_pattern cfgEmptyPat "a.txt" [("a").data, ("b").data] 1 rfl).2.1 rfl

/-! ### Claim C6 -/

/-- C6: Every emitted line is, in fixed order, the optional `<filename>: `
part, the optional `<line number>: ` part, then the line body; line
numbers are 1-based, reset at the start of each file, and advance with
every input line of that file whether or not it matches. -/
theorem c6_output_format (fs : FS) (c : Config) (files : List String) (get : String → String)
    (hok : ∀ f ∈ files, fs.readToString f = Except.ok (get f)) :
    scanFiles fs c files =
      (files.flatMap (fun f =>
        (List.enumFrom 1 (linesOf (get f))).filterMap (fun p =>
          if effectiveMatch c p.2 then
            some ((((if c.print_filenames then f.data ++ (": ").data else []) ++
                    (if c.print_line_no then (Nat.repr p.1).data ++ (": ").data else [])),
                   renderBody c p.2) : Emitted)
          else none)),
       none) := by
  induction files with
  | nil => rfl
  | cons file rest ih =>
    have h1 : fs.readToString file = Except.ok (get file) :=
      hok file (List.mem_cons_self file rest)
    have h2 := ih (fun g hg => hok g (List.mem_cons_of_mem file hg))
    simp only [scanFiles, h1, h2, scanFile, scanLines_closed_form, buildOutput,
      List.flatMap_cons]

/-- Filesystem with a single universal file content. -/
def fsSingle (content : String) : FS where
  metadata := fun _ => Except.ok false
  walkdir := fun _ => []
  isFile := fun _ => true
  glob := fun _ => Except.ok []
  readToString := fun _ => Except.ok content

/-- Configuration with `-n -f` set and pattern `foo`. -/
def cfgNumsNames : Config where
  print_usage := false
  search_string := ("foo").data
  filenames := ["a.txt"]
  is_case_insensitive := false
  print_line_no := true
  invert_match := false
  recursive_search := false
  print_filenames := true
  coloured_output := false

theorem c6_witness :
    scanFiles (fsSingle "foo\nbar\nfoobar") cfgNumsNames ["a.txt"] =
      ([(("a.txt: 1: ").data, Body.plain ("foo").data),
        (("a.txt: 3: ").data, Body.plain ("foobar").data)], none) :=
  (c6_output_format (fsSingle "foo\nbar\nfoobar") cfgNumsNames ["a.txt"]
      (fun _ => "foo\nbar\nfoobar")
      (fun _ _ => rfl)).trans (by decide)

/-! ### Claim C8 -/

/-- C8: A read failure on a resolved file aborts the run at that file:
no later file is scanned, the error is the one returned, and the lines
already produced for the earlier files are exactly what remains emitted. -/
theorem c8_read_error_aborts (fs : FS) (c : Config) (pre : List String) (bad : String)
    (post : List String) (e : String)
    (hpre : ∀ f ∈ pre, ∃ s, fs.readToString f = Except.ok s)
    (hbad : fs.readToString bad = Except.error e) :
    scanFiles fs c (pre ++ bad :: post) = ((scanFiles fs c pre).1, some e) := by
  induction pre with
  | nil => simp [scanFiles, hbad]
  | cons f rest ih =>
    obtain ⟨s, hs⟩ := hpre f (List.mem_cons_self f rest)
    have h2 := ih (fun g hg => hpre g (List.mem_cons_of_mem f hg))
    simp only [List.cons_append, scanFiles, hs, List.append_eq, h2]

/-- Filesystem where exactly `bad.txt` fails to read. -/
def fsReadFail : FS where
  metadata := fun _ => Except.ok false
  walkdir := fun _ => []
  isFile := fun _ => true
  glob := fun _ => Except.ok []
  readToString := fun f => if f = "bad.txt" then Except.error "read failed" else Except.ok "foo"

/-- Plain configuration with pattern `foo`. -/
def cfgPlainFoo : Config where
  print_usage := false
  search_string := ("foo").data
  filenames := ["good.txt", "bad.txt", "late.txt"]
  is_case_insensitive := false
  print_line_no := false
  invert_match := false
  recursive_search := false
  print_filenames := false
  coloured_output := false

theorem c8_witness :
    scanFiles fsReadFail cfgPlainFoo ["good.txt", "bad.txt", "late.txt"] =
      ([([], Body.plain ("foo").data)], some "read failed") :=
  (c8_read_error_aborts fsReadFail cfgPlainFoo ["good.txt"] "bad.txt" ["late.txt"] "read failed"
      (by
        intro f hf
        simp only [List.mem_singleton] at hf
        subst hf
        exact ⟨"foo", rfl⟩)
      rfl).trans (by decide)

/-! ### Claim C3 (corrected) -/

/-- Filesystem where no path can be statted but globbing reports zero
matches. -/
def fsStatFails : FS where
  metadata := fun _ => Except.error "io error"
  walkdir := fun _ => []
  isFile := fun _ => true
  glob := fun _ => Except.ok []
  readToString := fun _ => Except.ok ""

/-- C3 counterexample: `*.txt` contains a wildcard and glob expansion
would report zero matches, yet the resolver raises the metadata error
instead of contributing zero files, because `fs::metadata` is consulted
on the literal path before the wildcard check. -/
theorem c3_counterexample :
    ("*.txt" : String).data.contains '*' = true ∧
    fsStatFails.glob "*.txt" = Except.ok [] ∧
    parse_filenames fsStatFails ["*.txt"] false = (Except.error "io error", []) :=
  ⟨by decide, rfl, rfl⟩

/-- C3 amended: for a supplied path that contains `*`, can be statted, and
is not a directory, the resolver glob-expands it; every successful match
becomes a file entry, zero matches contribute zero files without an
error, and the remaining paths are processed as on their own. -/
theorem c3_amended_wildcard (fs : FS) (r : Bool) (path : String) (rest : List String)
    (gs : List String)
    (hmeta : fs.metadata path = Except.ok false)
    (hwild : path.data.contains '*' = true)
    (hglob : fs.glob path = Except.ok (gs.map Except.ok)) :
    parse_filenames fs (path :: rest) r =
      ((parse_filenames fs rest r).1.map (fun files => gs ++ files),
       (parse_filenames fs rest r).2) := by
  have hw : '*' ∈ path.data := by simpa using hwild
  simp [parse_filenames, hmeta, hw, hglob, collectGlob_map_ok]

/-- Filesystem where every path stats as a plain file and every glob
reports zero matches. -/
def fsGlobEmpty : FS where
  metadata := fun _ => Except.ok false
  walkdir := fun _ => []
  isFile := fun _ => true
  glob := fun _ => Except.ok []
  readToString := fun _ => Except.ok ""

theorem c3_amended_witness :
    parse_filenames fsGlobEmpty ["*.log"] false = (Except.ok [], []) :=
  (c3_amended_wildcard fsGlobEmpty false "*.log" [] [] rfl (by decide) rfl).trans rfl

/-! ### Claim C4 (corrected) -/

/-- Filesystem where no path can be statted but every read succeeds. -/
def fsStatMissing : FS where
  metadata := fun _ => Except.error "No such file or directory"
  walkdir := fun _ => []
  isFile := fun _ => true
  glob := fun _ => Except.ok []
  readToString := fun _ => Except.ok ""

/-- C4 counterexample: a missing literal path (no wildcard) makes the
resolver itself fail with the metadata error — even though reading would
succeed — so the failure does not surface in the Line Scanner stage. -/
theorem c4_counterexample :
    ("missing.txt" : String).data.contains '*' = false ∧
    fsStatMissing.readToString "missing.txt" = Except.ok "" ∧
    parse_filenames fsStatMissing ["missing.txt"] false =
      (Except.error "No such file or directory", []) :=
  ⟨by decide, rfl, rfl⟩

/-- C4 amended: a literal path (no wildcard) that can be statted as a
non-directory is appended as-is — the resolver never opens it, so an
unreadable file surfaces only as a read error in the scanner stage — but
a path that cannot be statted fails the resolver via the metadata check. -/
theorem c4_amended_literal (fs : FS) (r : Bool) (path : String) (rest : List String)
    (hmeta : fs.metadata path = Except.ok false)
    (hnw : path.data.contains '*' = false) :
    parse_filenames fs (path :: rest) r =
      ((parse_filenames fs rest r).1.map (fun files => path :: files),
       (parse_filenames fs rest r).2) := by
  have hw : '*' ∉ path.data := by simpa using hnw
  simp [parse_filenames, hmeta, hw]

/-- Filesystem where every path stats as a plain file but no file can be
read as text. -/
def fsUnreadable : FS where
  metadata := fun _ => Except.ok false
  walkdir := fun _ => []
  isFile := fun _ => true
  glob := fun _ => Except.ok []
  readToString := fun _ => Except.error "stream did not contain valid UTF-8"

theorem c4_amended_witness :
    parse_filenames fsUnreadable ["plain.txt"] false = (Except.ok ["plain.txt"], []) :=
  (c4_amended_literal fsUnreadable false "plain.txt" [] rfl (by decide)).trans rfl
